import Mathlib

/-!
Verification development for the XLSX → JSONL converter
(`src/services/convert_from_xlsx_to_json.py`).

The Python module is shallowly embedded: pandas worksheets become explicit
grids of cell values, `json.dumps` becomes an executable renderer over a
JSON-value tree, and the filesystem effects of `convert` / `convert_bytes`
(directory creation, output-file writing) become explicit state passing over
a directory predicate and a file store.
-/

mutual

/-- Cell / JSON values occurring in the pipeline.  Scalar constructors model
the Python values a worksheet cell (after `DataFrame.to_dict`) can hold:
`null` is Python `None`, `int` a Python int, `str` a Python str, `nan` the
float NaN pandas uses for missing cells; `npInt` is a NumPy integer scalar,
`datetime` a Python `datetime.datetime` and `timestamp` a pandas `Timestamp`
(each carrying the string its `isoformat()` would produce), `other` any other
object with no JSON representation.  `arr` and `obj` are JSON containers
(Python list / dict with string keys, insertion-ordered). -/
inductive J where
  | null : J
  | int (n : Int) : J
  | str (s : String) : J
  | nan : J
  | npInt (n : Int) : J
  | datetime (iso : String) : J
  | timestamp (iso : String) : J
  | other (tag : String) : J
  | arr (xs : JList) : J
  | obj (fields : JObj) : J

/-- Ordered list of JSON values (elements of a JSON array). -/
inductive JList where
  | nil : JList
  | cons (hd : J) (tl : JList) : JList

/-- Insertion-ordered string-keyed fields of a JSON object. -/
inductive JObj where
  | nil : JObj
  | cons (k : String) (v : J) (tl : JObj) : JObj

end

/-- Converts a Lean list of values into a `JList`. -/
def JList.ofList : List J → JList
  | [] => .nil
  | x :: xs => .cons x (JList.ofList xs)

/-- Converts a Lean list of key/value pairs into a `JObj`. -/
def JObj.ofPairs : List (String × J) → JObj
  | [] => .nil
  | (k, v) :: xs => .cons k v (JObj.ofPairs xs)

/-- Keys of a `JObj`, in insertion order. -/
def JObj.keys : JObj → List String
  | .nil => []
  | .cons k _ tl => k :: tl.keys

/-- Values of a `JObj`, in insertion order. -/
def JObj.values : JObj → List J
  | .nil => []
  | .cons _ v tl => v :: tl.values

/-- First value bound to `key` in a `JObj` (Python dict lookup). -/
def JObj.find : JObj → String → Option J
  | .nil, _ => none
  | .cons k v tl, key => if k = key then some v else tl.find key

/-- Field lookup on a JSON object value; `none` on non-objects. -/
def objLookup : J → String → Option J
  | .obj kvs, key => kvs.find key
  | _, _ => none

/-- JSON string escaping for one character, as Python's `json.dumps` with
`ensure_ascii=False` performs it: quote, backslash and control characters are
escaped, everything else is emitted literally. -/
def escChar (c : Char) : String :=
  if c = '"' then "\\\""
  else if c = '\\' then "\\\\"
  else if c = '\n' then "\\n"
  else if c = '\r' then "\\r"
  else if c = '\t' then "\\t"
  else if c.toNat < 32 then
    "\\u00" ++ String.mk [Nat.digitChar (c.toNat / 16), Nat.digitChar (c.toNat % 16)]
  else String.singleton c

/-- Renders a Python string as a JSON string literal (non-ASCII left as is,
matching `ensure_ascii=False`). -/
def renderStr (s : String) : String :=
  "\"" ++ String.join (s.toList.map escChar) ++ "\""

/-- Renders a Python int as JSON (decimal notation). -/
def renderInt (n : Int) : String := toString n

/-- Serialization of the scalars `json.dumps` handles natively: `None`,
ints, strings, and float NaN (emitted as the literal `NaN`, since
`allow_nan` defaults to true).  Everything else has no native JSON
representation and raises `TypeError`, modelled as `Except.error`. -/
def baseScalarRender : J → Except Unit String
  | .null => .ok "null"
  | .int n => .ok (renderInt n)
  | .str s => .ok (renderStr s)
  | .nan => .ok "NaN"
  | _ => .error ()

/-- Comma-space separator of `json.dumps` (its default item separator). -/
def joinComma (parts : List String) : String := String.intercalate ", " parts

mutual

/-- Executable model of `json.dumps(record, ensure_ascii=False, cls=...)`.
`dflt` models the encoder's `default` hook: `none` means the hook raises
`TypeError` (the fatal error propagates); `some w` means the hook returned
`w`, which `json.dumps` then serializes.  The two hooks used by this module
(`customDefaultOpt` and `jsonBaseDefault`) only ever return base scalars, so
re-serializing the hook's result with `baseScalarRender` is exact. -/
def jdump (dflt : J → Option J) : J → Except Unit String
  | .null => .ok "null"
  | .int n => .ok (renderInt n)
  | .str s => .ok (renderStr s)
  | .nan => .ok "NaN"
  | .arr xs =>
    match jdumpList dflt xs with
    | .ok parts => .ok ("[" ++ joinComma parts ++ "]")
    | .error e => .error e
  | .obj kvs =>
    match jdumpObj dflt kvs with
    | .ok parts => .ok ("\x7b" ++ joinComma parts ++ "\x7d")
    | .error e => .error e
  | v =>
    match dflt v with
    | some w => baseScalarRender w
    | none => .error ()

/-- Serializes each element of a JSON array. -/
def jdumpList (dflt : J → Option J) : JList → Except Unit (List String)
  | .nil => .ok []
  | .cons x xs =>
    match jdump dflt x, jdumpList dflt xs with
    | .ok s, .ok rest => .ok (s :: rest)
    | .error e, _ => .error e
    | _, .error e => .error e

/-- Serializes each `key: value` field of a JSON object. -/
def jdumpObj (dflt : J → Option J) : JObj → Except Unit (List String)
  | .nil => .ok []
  | .cons k v tl =>
    match jdump dflt v, jdumpObj dflt tl with
    | .ok s, .ok rest => .ok ((renderStr k ++ ": " ++ s) :: rest)
    | .error e, _ => .error e
    | _, .error e => .error e

end

/-- The `default` hook of the plain `json.JSONEncoder`: its body is a bare
`raise TypeError(...)`, so it handles nothing. -/
def jsonBaseDefault : J → Option J := fun _ => none

/-- ISO-8601 string a date/time value's `isoformat()` call would produce
(`none` for values without such a method). -/
def isoformatOf : J → Option String
  | .datetime iso => some iso
  | .timestamp iso => some iso
  | _ => none

/-- Embeds `CustomJSONEncoder.default` after `super().default(obj)` has
raised `TypeError` (which it always does).  The source then runs
`if type(obj) is DateTime: obj.isoformat()` — `DateTime` is the *click*
parameter type, never a cell value, and the computed ISO string is discarded
rather than returned (the `let _iso` models the discarded call) — then
`if isinstance(obj, np.integer): return int(obj)`, and otherwise falls off
the end of the function, returning Python `None`. -/
def customDefault (obj : J) : J :=
  let _iso := isoformatOf obj
  match obj with
  | .npInt n => .int n
  | _ => .null

/-- The `default` hook of `CustomJSONEncoder`: it never raises, it returns
`customDefault obj` (possibly the implicit `None`). -/
def customDefaultOpt : J → Option J := fun v => some (customDefault v)

/-- Tabular content of one worksheet as materialized by `xls.parse(sheet)`:
header-derived column names plus the data rows (header excluded), each row
listing its cell values in the columns' left-to-right order. -/
structure DataFrame where
  columns : List String
  rows : List (List J)

/-- Embeds `pandas.DataFrame.empty`: true iff either axis has length zero. -/
def DataFrame.empty (df : DataFrame) : Bool :=
  df.rows.isEmpty || df.columns.isEmpty

/-- Effect of `df.where(pd.notna(df), None)` on a single cell: missing
values (NaN) are replaced by `None`, everything else kept. -/
def nanToNull : J → J
  | .nan => .null
  | v => v

/-- Embeds `df.where(pd.notna(df), None)`: cell-wise NaN → None. -/
def whereNotna (df : DataFrame) : DataFrame :=
  ⟨df.columns, df.rows.map (fun r => r.map nanToNull)⟩

/-- One row of `DataFrame.to_dict(orient="records")`: a dict keyed by the
column names in left-to-right order. -/
def rowToObj (cols : List String) (row : List J) : J :=
  .obj (JObj.ofPairs (cols.zip row))

/-- Embeds `df.to_dict(orient=self.orient)`.  The converter's `orient` field
is fixed to its dataclass default `"records"` throughout the repository; only
that layout is modelled (other orients are unreachable in this code base). -/
def toDict (orient : String) (df : DataFrame) : J :=
  if orient = "records" then .arr (JList.ofList (df.rows.map (rowToObj df.columns)))
  else .null

/-- Configuration dataclass `XLSXtoJSONLConverter` with its field defaults. -/
structure XLSXtoJSONLConverter where
  include_sheet_name : Bool := true
  orient : String := "records"
  skip_empty_sheets : Bool := true

/-- The converter built with all dataclass defaults. -/
def defaultConverter : XLSXtoJSONLConverter := {}

/-- Embeds `XLSXtoJSONLConverter._sheet_to_record`: `None` when the frame is
empty and empty sheets are skipped; otherwise NaN → None normalization,
`to_dict`, and a record with or without the `sheet_name` field. -/
def sheetToRecord (cv : XLSXtoJSONLConverter) (df : DataFrame)
    (sheetName : String) : Option J :=
  if df.empty && cv.skip_empty_sheets then none
  else
    let df' := whereNotna df
    let data := toDict cv.orient df'
    if cv.include_sheet_name then
      some (.obj (.cons "sheet_name" (.str sheetName) (.cons "rows" data .nil)))
    else
      some (.obj (.cons "rows" data .nil))

/-- One worksheet of an opened workbook: its name (as listed by
`xls.sheet_names`) and the frame `xls.parse` yields for it. -/
structure NamedSheet where
  sheetName : String
  df : DataFrame

/-- Embeds `XLSXtoJSONLConverter.iter_sheet_records`: sheets in workbook
order, each normalized, `None` results dropped. -/
def iterSheetRecords (cv : XLSXtoJSONLConverter) (wb : List NamedSheet) :
    List J :=
  wb.filterMap (fun s => sheetToRecord cv s.df s.sheetName)

/-- Models the write loop `for record in ...: f_out.write(json.dumps(record,
...)); f_out.write('\n')`: returns the text actually written to the open
file and whether serialization raised (on a raise, the lines already written
stay in the file and the exception propagates). -/
def writeRecords (dflt : J → Option J) : List J → String × Bool
  | [] => ("", false)
  | r :: rs =>
    match jdump dflt r with
    | .ok s =>
      let rest := writeRecords dflt rs
      (s ++ "\n" ++ rest.1, rest.2)
    | .error _ => ("", true)

/-- Text `convert` writes to its output file: records dumped with
`cls=CustomJSONEncoder`, one per line. -/
def convertContent (cv : XLSXtoJSONLConverter) (wb : List NamedSheet) :
    String :=
  (writeRecords customDefaultOpt (iterSheetRecords cv wb)).1

/-- Text `convert_bytes` writes to its output file: records dumped with the
plain `json.dumps` (no `cls=` argument), one per line, truncated at the
first record whose serialization raises `TypeError`. -/
def convertBytesContent (cv : XLSXtoJSONLConverter) (wb : List NamedSheet) :
    String :=
  (writeRecords jsonBaseDefault (iterSheetRecords cv wb)).1

/-- Splits a character list at `/` separators, like `str.split('/')` (the
accumulator holds the current segment, reversed). -/
def splitSlashAux : List Char → List Char → List String
  | [], acc => [String.mk acc.reverse]
  | c :: cs, acc =>
    if c = '/' then String.mk acc.reverse :: splitSlashAux cs []
    else splitSlashAux cs (c :: acc)

/-- Components of `pathlib.Path(s)` on a POSIX system: the string split at
`/`, with empty segments and `.` segments normalized away (the root marker of
an absolute path is not tracked; no claim depends on it). -/
def pathComponents (s : String) : List String :=
  (splitSlashAux s.toList []).filter (fun c => !(c == "") && !(c == "."))

/-- Embeds `str(output_path).endswith(os.sep)` with the POSIX separator:
true iff the last character is `/`. -/
def endsWithSlash (s : String) : Bool :=
  match s.toList.getLast? with
  | some c => c == '/'
  | none => false

/-- Name (`Path.name`) of a path given as components: the final component,
or the empty string for an empty path. -/
def pathNameOf (comps : List String) : String :=
  comps.getLast?.getD ""

/-- Distance from the head to the first `'.'` of a character list; `none`
when there is no dot.  Applied to a reversed name it locates `rfind('.')`. -/
def revDotDist : List Char → Option Nat
  | [] => none
  | c :: cs => if c = '.' then some 0 else (revDotDist cs).map Nat.succ

/-- Embeds `PurePath.suffix` on a name's characters: with
`i = name.rfind('.')`, the suffix is `name[i:]` when `0 < i < len(name) - 1`
and empty otherwise. -/
def suffixCore (name : List Char) : List Char :=
  (revDotDist name.reverse).elim []
    (fun k =>
      if 0 < name.length - 1 - k ∧ name.length - 1 - k < name.length - 1
      then name.drop (name.length - 1 - k) else [])

/-- Name with its suffix removed, as `PurePath.with_suffix` computes it. -/
def stemCore (name : List Char) : List Char :=
  name.take (name.length - (suffixCore name).length)

/-- `Path(...).suffix` of the path whose name is `name`. -/
def pathSuffix (name : String) : String :=
  ⟨suffixCore name.toList⟩

/-- Count of `'.'` characters in a name (`p.name.count('.')`). -/
def dotCount (name : String) : Nat :=
  name.toList.count '.'

/-- Embeds `PurePath.with_suffix` on the name only: the old suffix (if any)
is dropped and the new one appended. -/
def withSuffixName (name : String) (suf : String) : String :=
  ⟨stemCore name.toList ++ suf.toList⟩

/-- Embeds `Path.with_suffix` on a whole path given as components. -/
def withSuffixComps (comps : List String) (suf : String) : List String :=
  comps.dropLast ++ [withSuffixName (pathNameOf comps) suf]

/-- Directory state of the filesystem: which paths (as component lists)
currently exist as directories (`p.exists() and p.is_dir()`). -/
structure FS where
  isDir : List String → Bool

/-- Output target as accepted by `_normalize_output_path`
(`Union[str, Path, bytes, bytearray]`).  A `bytes`/`bytearray` value is
carried by the UTF-8 text it decodes to, so `.decode('utf-8')` is the
identity on the carried text; a `Path` argument is carried as its components
(its `str()` never ends in a separator, which `OutTarget.rawStr` mirrors by
re-joining the components). -/
inductive OutTarget where
  | str (s : String) : OutTarget
  | bytes (utf8Text : String) : OutTarget
  | path (comps : List String) : OutTarget

/-- The string `str(output_path)` used by the `endswith(os.sep)` test, after
the bytes → str decoding step. -/
def OutTarget.rawStr : OutTarget → String
  | .str s => s
  | .bytes s => s
  | .path c => String.intercalate "/" c

/-- Components of `Path(output_path)` after the bytes → str decoding step. -/
def OutTarget.comps : OutTarget → List String
  | .str s => pathComponents s
  | .bytes s => pathComponents s
  | .path c => c

/-- Embeds `XLSXtoJSONLConverter._normalize_output_path`: bytes are decoded
first (carried in `OutTarget`); an existing directory gets
`default_filename` appended; else a path with no suffix that ends in the
separator or whose name has no dot is treated as an intended directory and
gets `default_filename` appended; else the path is used verbatim. -/
def normalizeOutputPath (fs : FS) (t : OutTarget) (defaultFilename : String) :
    List String :=
  let c := t.comps
  if fs.isDir c then c ++ [defaultFilename]
  else if pathSuffix (pathNameOf c) == "" &&
      (endsWithSlash t.rawStr || dotCount (pathNameOf c) == 0) then
    c ++ [defaultFilename]
  else c

/-- Effect of `output_path.parent.mkdir(parents=True, exist_ok=True)` on the
directory state: every ancestor of the resolved file (every proper initial
segment of its components) now exists as a directory. -/
def mkdirParents (fs : FS) (p : List String) : FS :=
  ⟨fun q => fs.isDir q || decide (q <+: p.dropLast)⟩

/-- Contents of output files on disk, keyed by path components. -/
def Store := List String → Option String

/-- Opening a path with mode `'w'` and writing `content` replaces whatever
the file previously held. -/
def writeFileStore (st : Store) (p : List String) (content : String) :
    Store :=
  fun q => if q = p then some content else st q

/-- Output-path resolution of `convert`: an omitted `output_path` defaults
to the input path with its extension replaced by `.jsonl`, and the result is
passed through `_normalize_output_path` with default filename
`input_path.with_suffix('.jsonl').name`. -/
def convertResolvedPath (fs : FS) (input : String) (outT : Option OutTarget) :
    List String :=
  let ic := pathComponents input
  let defaultName := withSuffixName (pathNameOf ic) ".jsonl"
  let t := outT.getD (OutTarget.path (withSuffixComps ic ".jsonl"))
  normalizeOutputPath fs t defaultName

/-- Embeds `XLSXtoJSONLConverter.convert` as a state transformer: resolves
the output path, creates parent directories, writes the serialized records
(custom encoder), and returns the resolved path with the new states.  The
workbook `wb` stands for the sheets `pd.ExcelFile(input_path)` yields. -/
def convertRun (cv : XLSXtoJSONLConverter) (wb : List NamedSheet) (fs : FS)
    (st : Store) (input : String) (outT : Option OutTarget) :
    List String × FS × Store :=
  let p := convertResolvedPath fs input outT
  let fs' := mkdirParents fs p
  (p, fs', writeFileStore st p (convertContent cv wb))

/-- Embeds `XLSXtoJSONLConverter.convert_bytes` as a state transformer: the
workbook `wb` stands for the sheets `pd.ExcelFile(io.BytesIO(file_bytes))`
yields; the resolution uses default filename `output.jsonl` and the records
are dumped with the plain encoder. -/
def convertBytesRun (cv : XLSXtoJSONLConverter) (wb : List NamedSheet)
    (fs : FS) (st : Store) (outT : OutTarget) : List String × FS × Store :=
  let p := normalizeOutputPath fs outT "output.jsonl"
  let fs' := mkdirParents fs p
  (p, fs', writeFileStore st p (convertBytesContent cv wb))

/-- String the custom-encoder dump of a record produces (total, since that
dump never fails — see `jdump_custom_ok`). -/
def jdumpStr (r : J) : String :=
  match jdump customDefaultOpt r with
  | .ok s => s
  | .error _ => ""

/-- Concatenation of newline-terminated lines, one per list element. -/
def joinLines : List String → String
  | [] => ""
  | l :: rest => l ++ "\n" ++ joinLines rest

mutual

/-- Serialization under the custom encoder never raises: its `default` hook
always returns a base scalar (an int or `None`). -/
theorem jdump_custom_ok : ∀ v : J, ∃ s, jdump customDefaultOpt v = .ok s
  | .null => ⟨_, rfl⟩
  | .int _ => ⟨_, rfl⟩
  | .str _ => ⟨_, rfl⟩
  | .nan => ⟨_, rfl⟩
  | .npInt _ => ⟨_, rfl⟩
  | .datetime _ => ⟨_, rfl⟩
  | .timestamp _ => ⟨_, rfl⟩
  | .other _ => ⟨_, rfl⟩
  | .arr xs => by
    obtain ⟨ss, h⟩ := jdumpList_custom_ok xs
    exact ⟨"[" ++ joinComma ss ++ "]", by simp [jdump, h]⟩
  | .obj kvs => by
    obtain ⟨ss, h⟩ := jdumpObj_custom_ok kvs
    exact ⟨"\x7b" ++ joinComma ss ++ "\x7d", by simp [jdump, h]⟩

/-- Array elements always serialize under the custom encoder. -/
theorem jdumpList_custom_ok :
    ∀ xs : JList, ∃ ss, jdumpList customDefaultOpt xs = .ok ss
  | .nil => ⟨_, rfl⟩
  | .cons x xs => by
    obtain ⟨s, hx⟩ := jdump_custom_ok x
    obtain ⟨ss, hxs⟩ := jdumpList_custom_ok xs
    exact ⟨s :: ss, by simp [jdumpList, hx, hxs]⟩

/-- Object fields always serialize under the custom encoder. -/
theorem jdumpObj_custom_ok :
    ∀ kvs : JObj, ∃ ss, jdumpObj customDefaultOpt kvs = .ok ss
  | .nil => ⟨_, rfl⟩
  | .cons k v tl => by
    obtain ⟨s, hv⟩ := jdump_custom_ok v
    obtain ⟨ss, htl⟩ := jdumpObj_custom_ok tl
    exact ⟨(renderStr k ++ ": " ++ s) :: ss, by simp [jdumpObj, hv, htl]⟩

end

/-- The write loop of `convert` writes every record as one newline-terminated
line and never raises. -/
theorem writeRecords_custom (recs : List J) :
    writeRecords customDefaultOpt recs
      = (joinLines (recs.map jdumpStr), false) := by
  induction recs with
  | nil => rfl
  | cons r rs ih =>
    obtain ⟨s, h⟩ := jdump_custom_ok r
    simp [writeRecords, h, ih, joinLines, jdumpStr]

/-- Length of a `filterMap` as a count of the elements the function keeps. -/
theorem length_filterMap_eq_countP {α β : Type} (f : α → Option β)
    (l : List α) :
    (l.filterMap f).length = l.countP (fun a => (f a).isSome) := by
  induction l with
  | nil => rfl
  | cons a l ih =>
    cases h : f a <;>
      simp [List.filterMap_cons, h, List.countP_cons, ih]

mutual

/-- A JSON value is plain when it is built only from the scalars the base
serializer handles natively, with no encoder-extension types anywhere. -/
def plainJ : J → Bool
  | .null => true
  | .int _ => true
  | .str _ => true
  | .nan => true
  | .arr xs => plainL xs
  | .obj kvs => plainO kvs
  | _ => false

/-- Every element of the array is plain. -/
def plainL : JList → Bool
  | .nil => true
  | .cons x xs => plainJ x && plainL xs

/-- Every field value of the object is plain. -/
def plainO : JObj → Bool
  | .nil => true
  | .cons _ v tl => plainJ v && plainO tl

end

mutual

/-- On plain values the plain encoder and the custom encoder agree: the
`default` hook is only consulted for values the base serializer rejects. -/
theorem jdump_plain :
    ∀ v : J, plainJ v = true →
      jdump jsonBaseDefault v = jdump customDefaultOpt v
  | .null, _ => rfl
  | .int _, _ => rfl
  | .str _, _ => rfl
  | .nan, _ => rfl
  | .npInt _, h => by simp [plainJ] at h
  | .datetime _, h => by simp [plainJ] at h
  | .timestamp _, h => by simp [plainJ] at h
  | .other _, h => by simp [plainJ] at h
  | .arr xs, h => by
    have hxs : plainL xs = true := by simpa [plainJ] using h
    simp only [jdump]
    rw [jdumpList_plain xs hxs]
  | .obj kvs, h => by
    have hk : plainO kvs = true := by simpa [plainJ] using h
    simp only [jdump]
    rw [jdumpObj_plain kvs hk]

/-- List version of `jdump_plain`. -/
theorem jdumpList_plain :
    ∀ xs : JList, plainL xs = true →
      jdumpList jsonBaseDefault xs = jdumpList customDefaultOpt xs
  | .nil, _ => rfl
  | .cons x xs, h => by
    have hx : plainJ x = true := by simp [plainL] at h; exact h.1
    have hxs : plainL xs = true := by simp [plainL] at h; exact h.2
    simp only [jdumpList]
    rw [jdump_plain x hx, jdumpList_plain xs hxs]

/-- Object version of `jdump_plain`. -/
theorem jdumpObj_plain :
    ∀ kvs : JObj, plainO kvs = true →
      jdumpObj jsonBaseDefault kvs = jdumpObj customDefaultOpt kvs
  | .nil, _ => rfl
  | .cons k v tl, h => by
    have hv : plainJ v = true := by simp [plainO] at h; exact h.1
    have htl : plainO tl = true := by simp [plainO] at h; exact h.2
    simp only [jdumpObj]
    rw [jdump_plain v hv, jdumpObj_plain tl htl]

end

/-- Appending the extension `.jsonl` to a nonempty stem yields a name whose
`suffix` is exactly `.jsonl`, whatever dots the stem contains. -/
theorem suffixCore_append_jsonl (s : List Char) (hs : s ≠ []) :
    suffixCore (s ++ ('.' :: 'j' :: 's' :: 'o' :: 'n' :: 'l' :: []))
      = '.' :: 'j' :: 's' :: 'o' :: 'n' :: 'l' :: [] := by
  have hlen : 0 < s.length := List.length_pos.mpr hs
  have hrev : (s ++ ('.' :: 'j' :: 's' :: 'o' :: 'n' :: 'l' :: [])).reverse
      = 'l' :: 'n' :: 'o' :: 's' :: 'j' :: '.' :: s.reverse := by
    rw [List.reverse_append]
    rfl
  have hdot :
      revDotDist ((s ++ ('.' :: 'j' :: 's' :: 'o' :: 'n' :: 'l' :: [])).reverse)
        = some 5 := by
    rw [hrev]
    simp [revDotDist]
  have hL : (s ++ ('.' :: 'j' :: 's' :: 'o' :: 'n' :: 'l' :: [])).length
      = s.length + 6 := by
    simp [List.length_append]
  unfold suffixCore
  rw [hdot]
  simp only [Option.elim]
  rw [hL]
  have hi : s.length + 6 - 1 - 5 = s.length := by omega
  rw [hi, if_pos ⟨hlen, by omega⟩]
  exact List.drop_left s _

/-- Unfolding equation of `suffixCore` (stated once so hypotheses and goals
rewrite to the same shape). -/
theorem suffixCore_eq (name : List Char) :
    suffixCore name = (revDotDist name.reverse).elim []
      (fun k =>
        if 0 < name.length - 1 - k ∧ name.length - 1 - k < name.length - 1
        then name.drop (name.length - 1 - k) else []) := rfl

/-- A nonempty suffix is strictly shorter than the whole name. -/
theorem suffixCore_length_lt (name : List Char) (h : suffixCore name ≠ []) :
    (suffixCore name).length < name.length := by
  rw [suffixCore_eq] at h ⊢
  revert h
  cases revDotDist name.reverse with
  | none => intro h; exact absurd rfl h
  | some k =>
    intro h
    simp only [Option.elim] at h ⊢
    by_cases hc : 0 < name.length - 1 - k ∧ name.length - 1 - k < name.length - 1
    · rw [if_pos hc]
      rw [List.length_drop]
      omega
    · rw [if_neg hc] at h
      exact absurd rfl h

/-- Dropping the suffix of a nonempty name leaves a nonempty stem. -/
theorem stemCore_ne_nil (name : List Char) (h : name ≠ []) :
    stemCore name ≠ [] := by
  unfold stemCore
  by_cases hsuf : suffixCore name = []
  · rw [hsuf]
    simpa using h
  · have hlt := suffixCore_length_lt name hsuf
    have hpos : 0 < name.length - (suffixCore name).length := by omega
    intro hnil
    rcases List.take_eq_nil_iff.mp hnil with h1 | h1
    · omega
    · exact h h1

/-- After `convert`/`convert_bytes` have created the parent directories of
the resolved output path, resolving the same target again yields the same
path: the heuristic of `_normalize_output_path` is stable under the
directories the first run creates. -/
theorem normalize_mkdirParents (fs : FS) (t : OutTarget) (d : String) :
    normalizeOutputPath (mkdirParents fs (normalizeOutputPath fs t d)) t d
      = normalizeOutputPath fs t d := by
  by_cases h1 : fs.isDir t.comps
  · simp [normalizeOutputPath, mkdirParents, h1]
  · by_cases h2 : (pathSuffix (pathNameOf t.comps) == "" &&
        (endsWithSlash t.rawStr || dotCount (pathNameOf t.comps) == 0)) = true
    · have hself : decide (t.comps <+: (t.comps ++ [d]).dropLast) = true := by
        rw [List.dropLast_concat]
        exact decide_eq_true (List.prefix_refl _)
      simp [normalizeOutputPath, mkdirParents, h1, h2, hself]
    · have hne : t.comps ≠ [] := by
        intro hnil
        apply h2
        rw [hnil]
        have e1 : (pathSuffix (pathNameOf ([] : List String)) == "") = true := by
          decide
        have e2 : (dotCount (pathNameOf ([] : List String)) == 0) = true := by
          decide
        simp [e1, e2]
      have hnp : decide (t.comps <+: t.comps.dropLast) = false := by
        apply decide_eq_false
        intro hp
        have hle := hp.length_le
        rw [List.length_dropLast] at hle
        have hpos : 0 < t.comps.length := List.length_pos.mpr hne
        omega
      simp [normalizeOutputPath, mkdirParents, h1, h2, hnp]

/-- Scalars `json.dumps` cannot serialize natively, i.e. exactly the values
for which `JSONEncoder.default` is consulted: NumPy integers, date/time
values, and arbitrary unserializable objects. -/
def extensionScalar : J → Bool
  | .npInt _ => true
  | .datetime _ => true
  | .timestamp _ => true
  | .other _ => true
  | _ => false

/-- Keys of a zipped object are exactly the column list when the row has one
value per column. -/
theorem keys_ofPairs_zip :
    ∀ (cols : List String) (vals : List J), vals.length = cols.length →
      (JObj.ofPairs (cols.zip vals)).keys = cols := by
  intro cols
  induction cols with
  | nil => intro vals _; rfl
  | cons c cs ih =>
    intro vals hlen
    cases vals with
    | nil => simp at hlen
    | cons v vs =>
      show (JObj.ofPairs ((c, v) :: cs.zip vs)).keys = c :: cs
      simp only [JObj.ofPairs, JObj.keys]
      rw [ih vs (by simpa using hlen)]

/-- Values of a zipped object are exactly the row when the row has one value
per column. -/
theorem values_ofPairs_zip :
    ∀ (cols : List String) (vals : List J), vals.length = cols.length →
      (JObj.ofPairs (cols.zip vals)).values = vals := by
  intro cols
  induction cols with
  | nil =>
    intro vals hlen
    cases vals with
    | nil => rfl
    | cons v vs => simp at hlen
  | cons c cs ih =>
    intro vals hlen
    cases vals with
    | nil => simp at hlen
    | cons v vs =>
      show (JObj.ofPairs ((c, v) :: cs.zip vs)).values = v :: vs
      simp only [JObj.ofPairs, JObj.values]
      rw [ih vs (by simpa using hlen)]

/-- On record lists whose values are all plain, the write loops of the two
entry points produce the same file text and the same error status. -/
theorem writeRecords_plain (recs : List J)
    (h : ∀ r ∈ recs, plainJ r = true) :
    writeRecords jsonBaseDefault recs = writeRecords customDefaultOpt recs := by
  induction recs with
  | nil => rfl
  | cons r rs ih =>
    have hr := h r (List.mem_cons_self r rs)
    have hrs := fun x hx => h x (List.mem_cons_of_mem _ hx)
    simp only [writeRecords, jdump_plain r hr, ih hrs]

/-- Writing the same content to the same path twice equals writing it once
(mode `'w'` truncates). -/
theorem writeFileStore_idem (st : Store) (p : List String) (c : String) :
    writeFileStore (writeFileStore st p c) p c = writeFileStore st p c :=
  funext fun q => by by_cases h : q = p <;> simp [writeFileStore, h]

/-- Creating the parent directories of `p` twice equals creating them
once. -/
theorem mkdirParents_idem (fs : FS) (p : List String) :
    mkdirParents (mkdirParents fs p) p = mkdirParents fs p := by
  unfold mkdirParents
  exact congrArg FS.mk (funext fun q => by
    show ((fs.isDir q || decide (q <+: p.dropLast)) || decide (q <+: p.dropLast))
        = (fs.isDir q || decide (q <+: p.dropLast))
    rw [Bool.or_assoc, Bool.or_self])

/-- Workbook of the end-to-end scenario: sheets `Data` (2 rows), `Empty`
(no data) and `Meta` (1 row), in that order. -/
def sampleWB : List NamedSheet :=
  [⟨"Data", ⟨["a", "b"], [[.int 1, .str "x"], [.int 2, .str "y"]]⟩⟩,
   ⟨"Empty", ⟨[], []⟩⟩,
   ⟨"Meta", ⟨["col"], [[.int 10]]⟩⟩]

/-- Single-sheet workbook holding one date/time cell. -/
def dtWB : List NamedSheet :=
  [⟨"S", ⟨["d"], [[.datetime "2024-01-01T00:00:00"]]⟩⟩]

/-- Record the normalizer emits for the `Data` sheet of the sample
workbook. -/
def dataRecJ : J :=
  .obj (.cons "sheet_name" (.str "Data")
    (.cons "rows" (.arr (.cons
      (.obj (.cons "a" (.int 1) (.cons "b" (.str "x") .nil)))
      (.cons (.obj (.cons "a" (.int 2) (.cons "b" (.str "y") .nil))) .nil)))
      .nil))

/-- Record the normalizer emits for the `Meta` sheet of the sample
workbook. -/
def metaRecJ : J :=
  .obj (.cons "sheet_name" (.str "Meta")
    (.cons "rows" (.arr (.cons (.obj (.cons "col" (.int 10) .nil)) .nil))
      .nil))

/-- C1: with the default configuration the output of `convert` is exactly
one `\n`-terminated JSON line per non-skipped worksheet, in workbook order
(the write loop never raises, writes `dumps(record) ++ "\n"` per record, and
the record count is the count of sheets the normalizer keeps); every record
carries the shape `{"sheet_name": <name>, "rows": [...]}`; and the sample
workbook `Data` (2 rows) / `Empty` (0 rows) / `Meta` (1 row) yields exactly
the two records for `Data` then `Meta` — the first with
`rows[0] = {"a": 1, "b": "x"}` — and exactly the two expected lines of
output text. -/
theorem claim_C1 :
    (∀ (cv : XLSXtoJSONLConverter) (wb : List NamedSheet),
        writeRecords customDefaultOpt (iterSheetRecords cv wb)
          = (joinLines ((iterSheetRecords cv wb).map jdumpStr), false)
      ∧ (iterSheetRecords cv wb).length
          = wb.countP (fun s => (sheetToRecord cv s.df s.sheetName).isSome))
    ∧ (∀ (cv : XLSXtoJSONLConverter) (wb : List NamedSheet) (r : J),
        cv.include_sheet_name = true → r ∈ iterSheetRecords cv wb →
        ∃ nm data,
          r = .obj (.cons "sheet_name" (.str nm) (.cons "rows" data .nil)))
    ∧ iterSheetRecords defaultConverter sampleWB = [dataRecJ, metaRecJ]
    ∧ (iterSheetRecords defaultConverter sampleWB).length = 2
    ∧ convertContent defaultConverter sampleWB
        = "\x7b\"sheet_name\": \"Data\", \"rows\": [\x7b\"a\": 1, \"b\": \"x\"\x7d, \x7b\"a\": 2, \"b\": \"y\"\x7d]\x7d\n\x7b\"sheet_name\": \"Meta\", \"rows\": [\x7b\"col\": 10\x7d]\x7d\n" := by
  refine ⟨fun cv wb => ⟨writeRecords_custom _, ?_⟩, ?_, rfl, rfl, by decide⟩
  · exact length_filterMap_eq_countP _ _
  · intro cv wb r hinc hr
    obtain ⟨s, hs, hrec⟩ := List.mem_filterMap.mp hr
    unfold sheetToRecord at hrec
    by_cases he : (s.df.empty && cv.skip_empty_sheets) = true
    · rw [if_pos he] at hrec
      cases hrec
    · rw [if_neg he] at hrec
      rw [hinc] at hrec
      rw [if_pos rfl] at hrec
      exact ⟨s.sheetName, _, (Option.some.inj hrec).symm⟩

/-- C1 witness: the shape clause instantiated on the first record of the
sample workbook's conversion. -/
theorem claim_C1_witness :
    ∃ nm data,
      dataRecJ = J.obj (.cons "sheet_name" (.str nm)
        (.cons "rows" data .nil)) :=
  claim_C1.2.1 defaultConverter sampleWB dataRecJ rfl
    (by rw [claim_C1.2.2.1]; exact List.mem_cons_self _ _)

/-- C4 (code defect): a date/time value is NOT serialized to its ISO-8601
string.  `CustomJSONEncoder.default` computes nothing useful for it — the
`DateTime` branch tests the click parameter type and discards the
`isoformat()` result — so the hook returns `None` and the value is emitted
as JSON `null` (and `convert_bytes`, which does not use the custom encoder,
raises `TypeError` instead). -/
theorem claim_C4 :
    customDefault (.datetime "2024-01-01T00:00:00") = .null
    ∧ jdump customDefaultOpt (.datetime "2024-01-01T00:00:00") = .ok "null"
    ∧ jdump customDefaultOpt (.timestamp "2024-01-01T00:00:00") = .ok "null"
    ∧ jdump jsonBaseDefault (.datetime "2024-01-01T00:00:00") = .error ()
    ∧ convertContent defaultConverter dtWB
        = "\x7b\"sheet_name\": \"S\", \"rows\": [\x7b\"d\": null\x7d]\x7d\n" :=
  ⟨rfl, rfl, rfl, rfl, by decide⟩

/-- C5 counterexample: a value with no defined JSON representation does NOT
make encoding fail in the `convert` pipeline — the custom encoder silently
coerces it to `null` and the write loop reports no error. -/
theorem claim_C5_cex :
    writeRecords customDefaultOpt [J.obj (.cons "x" (.other "object()") .nil)]
      = ("\x7b\"x\": null\x7d\n", false)
    ∧ jdump customDefaultOpt (.other "object()") = .ok "null" :=
  ⟨rfl, rfl⟩

/-- C5 amended: an unserializable value is a fatal error only under the
plain encoder that `convert_bytes` uses (`json.dumps` with no `cls=`, where
the base `default` raises `TypeError`); under the `CustomJSONEncoder` that
`convert` uses, every such value is silently coerced — NumPy integers to
ints, everything else to `null` — and no error is raised. -/
theorem claim_C5 (v : J) (h : extensionScalar v = true) :
    jdump jsonBaseDefault v = .error ()
      ∧ ∃ s, jdump customDefaultOpt v = .ok s := by
  cases v with
  | npInt n => exact ⟨rfl, ⟨renderInt n, rfl⟩⟩
  | datetime iso => exact ⟨rfl, ⟨"null", rfl⟩⟩
  | timestamp iso => exact ⟨rfl, ⟨"null", rfl⟩⟩
  | other tag => exact ⟨rfl, ⟨"null", rfl⟩⟩
  | null => simp [extensionScalar] at h
  | int n => simp [extensionScalar] at h
  | str s => simp [extensionScalar] at h
  | nan => simp [extensionScalar] at h
  | arr xs => simp [extensionScalar] at h
  | obj kvs => simp [extensionScalar] at h

/-- C5 witness: the amended claim instantiated on an arbitrary
unserializable object. -/
theorem claim_C5_witness :
    jdump jsonBaseDefault (.other "object()") = .error ()
      ∧ ∃ s, jdump customDefaultOpt (.other "object()") = .ok s :=
  claim_C5 (.other "object()") rfl

/-- C6 counterexample: on a workbook holding one date/time cell the two
entry points do NOT produce the same output content — `convert` writes the
record with `null`, while `convert_bytes` raises `TypeError` before writing
the line, leaving the file empty. -/
theorem claim_C6_cex :
    convertContent defaultConverter dtWB ≠ convertBytesContent defaultConverter dtWB
    ∧ (writeRecords jsonBaseDefault (iterSheetRecords defaultConverter dtWB)).2 = true
    ∧ (writeRecords customDefaultOpt (iterSheetRecords defaultConverter dtWB)).2 = false :=
  ⟨by decide, rfl, rfl⟩

/-- C6 amended: the two entry points differ in the JSON encoder — `convert`
passes `cls=CustomJSONEncoder` while `convert_bytes` calls the plain
`json.dumps` — so they write identical content exactly on workbooks whose
records contain only natively serializable values; on those the byte-buffer
loop also raises no error. -/
theorem claim_C6 (cv : XLSXtoJSONLConverter) (wb : List NamedSheet)
    (h : ∀ r ∈ iterSheetRecords cv wb, plainJ r = true) :
    convertBytesContent cv wb = convertContent cv wb
      ∧ (writeRecords jsonBaseDefault (iterSheetRecords cv wb)).2 = false := by
  constructor
  · unfold convertBytesContent convertContent
    rw [writeRecords_plain _ h]
  · rw [writeRecords_plain _ h, writeRecords_custom]

/-- C6 witness: the amended claim instantiated on the sample workbook, whose
cell values are all natively serializable. -/
theorem claim_C6_witness :
    convertBytesContent defaultConverter sampleWB
        = convertContent defaultConverter sampleWB
      ∧ (writeRecords jsonBaseDefault
          (iterSheetRecords defaultConverter sampleWB)).2 = false :=
  claim_C6 defaultConverter sampleWB (by decide)

/-- C2: the normalizer returns `None` exactly for a worksheet with zero data
rows under `skip_empty_sheets = true` (for frames parsed from a worksheet a
frame with no columns has no data rows either, which is the stated
well-formedness hypothesis); with `skip_empty_sheets = false` a zero-row
worksheet yields exactly one record, whose `rows` field is the empty
sequence. -/
theorem claim_C2 :
    (∀ (cv : XLSXtoJSONLConverter) (df : DataFrame) (nm : String),
        (df.columns = [] → df.rows = []) →
        (sheetToRecord cv df nm = none ↔
          df.rows = [] ∧ cv.skip_empty_sheets = true))
    ∧ (∀ (cv : XLSXtoJSONLConverter) (df : DataFrame) (nm : String),
        cv.skip_empty_sheets = false → cv.orient = "records" →
        df.rows = [] →
        ∃ r, sheetToRecord cv df nm = some r
          ∧ objLookup r "rows" = some (.arr .nil)
          ∧ iterSheetRecords cv [⟨nm, df⟩] = [r]) := by
  constructor
  · intro cv df nm hwf
    constructor
    · intro h
      unfold sheetToRecord at h
      by_cases he : (df.empty && cv.skip_empty_sheets) = true
      · have h1 : df.empty = true := (Bool.and_eq_true _ _).mp he |>.1
        have h2 : cv.skip_empty_sheets = true := (Bool.and_eq_true _ _).mp he |>.2
        have hrows : df.rows = [] := by
          have h1' : df.rows = [] ∨ df.columns = [] := by
            simpa [DataFrame.empty, List.isEmpty_iff] using h1
          rcases h1' with hh | hh
          · exact hh
          · exact hwf hh
        exact ⟨hrows, h2⟩
      · rw [if_neg he] at h
        by_cases hi : cv.include_sheet_name = true
        · rw [hi, if_pos rfl] at h
          cases h
        · rw [Bool.not_eq_true] at hi
          rw [hi, if_neg (by simp)] at h
          cases h
    · rintro ⟨h1, h2⟩
      have hemp : df.empty = true := by
        unfold DataFrame.empty
        rw [h1]
        rfl
      simp [sheetToRecord, hemp, h2]
  · intro cv df nm hskip ho hr
    have hsome : sheetToRecord cv df nm
        = some (if cv.include_sheet_name
            then J.obj (.cons "sheet_name" (.str nm)
              (.cons "rows" (.arr .nil) .nil))
            else J.obj (.cons "rows" (.arr .nil) .nil)) := by
      unfold sheetToRecord
      rw [if_neg (by simp [hskip])]
      have hdata : toDict cv.orient (whereNotna df) = .arr .nil := by
        simp [toDict, ho, whereNotna, hr, JList.ofList]
      simp only [hdata]
      by_cases hi : cv.include_sheet_name = true
      · rw [hi]
        simp
      · rw [Bool.not_eq_true] at hi
        rw [hi]
        simp
    refine ⟨_, hsome, ?_, ?_⟩
    · by_cases hi : cv.include_sheet_name = true
      · rw [hi]
        simp [objLookup, JObj.find]
      · rw [Bool.not_eq_true] at hi
        rw [hi]
        simp [objLookup, JObj.find]
    · simp [iterSheetRecords, List.filterMap_cons, hsome]

/-- C2 witness: both clauses instantiated on a zero-row worksheet with one
column. -/
theorem claim_C2_witness :
    (sheetToRecord defaultConverter ⟨["a"], []⟩ "Empty" = none ↔
      ([] : List (List J)) = [] ∧ defaultConverter.skip_empty_sheets = true)
    ∧ ∃ r, sheetToRecord ⟨true, "records", false⟩ ⟨["a"], []⟩ "Empty" = some r
        ∧ objLookup r "rows" = some (.arr .nil)
        ∧ iterSheetRecords ⟨true, "records", false⟩ [⟨"Empty", ⟨["a"], []⟩⟩]
            = [r] :=
  ⟨claim_C2.1 defaultConverter ⟨["a"], []⟩ "Empty" (fun h => by cases h),
   claim_C2.2 ⟨true, "records", false⟩ ⟨["a"], []⟩ "Empty" rfl rfl rfl⟩

/-- C3: every emitted record renders missing cells as explicit nulls,
uniformly: the `rows` field is the row list with `NaN → None` applied to
every cell of every column; a row with one value per column produces an
object whose keys are exactly the column names (no key omitted) and whose
values are exactly the normalized cells; the normalization maps NaN to
`null` — never to an empty string — and leaves every other value (including
cells of entirely empty columns, which pandas reads as NaN) unchanged. -/
theorem claim_C3 :
    (∀ (cv : XLSXtoJSONLConverter) (df : DataFrame) (nm : String) (r : J),
        cv.orient = "records" → sheetToRecord cv df nm = some r →
        objLookup r "rows"
          = some (.arr (JList.ofList (df.rows.map
              (fun row => rowToObj df.columns (row.map nanToNull))))))
    ∧ (∀ (cols : List String) (row : List J),
        row.length = cols.length →
        (JObj.ofPairs (cols.zip (row.map nanToNull))).keys = cols)
    ∧ (∀ (cols : List String) (row : List J),
        row.length = cols.length →
        (JObj.ofPairs (cols.zip (row.map nanToNull))).values
          = row.map nanToNull)
    ∧ nanToNull .nan = .null
    ∧ (∀ v : J, v ≠ .nan → nanToNull v = v) := by
  refine ⟨?_, ?_, ?_, rfl, ?_⟩
  · intro cv df nm r ho hrec
    unfold sheetToRecord at hrec
    by_cases he : (df.empty && cv.skip_empty_sheets) = true
    · rw [if_pos he] at hrec
      cases hrec
    · rw [if_neg he] at hrec
      have hdata : toDict cv.orient (whereNotna df)
          = .arr (JList.ofList (df.rows.map
              (fun row => rowToObj df.columns (row.map nanToNull)))) := by
        simp [toDict, ho, whereNotna, List.map_map]
        rfl
      simp only [hdata] at hrec
      by_cases hi : cv.include_sheet_name = true
      · rw [hi, if_pos rfl] at hrec
        rw [← Option.some.inj hrec]
        simp [objLookup, JObj.find]
      · rw [Bool.not_eq_true] at hi
        rw [hi, if_neg (by simp)] at hrec
        rw [← Option.some.inj hrec]
        simp [objLookup, JObj.find]
  · intro cols row hlen
    exact keys_ofPairs_zip cols (row.map nanToNull)
      (by simpa [List.length_map] using hlen)
  · intro cols row hlen
    exact values_ofPairs_zip cols (row.map nanToNull)
      (by simpa [List.length_map] using hlen)
  · intro v hv
    cases v with
    | nan => exact absurd rfl hv
    | null => rfl
    | int n => rfl
    | str s => rfl
    | npInt n => rfl
    | datetime iso => rfl
    | timestamp iso => rfl
    | other tag => rfl
    | arr xs => rfl
    | obj kvs => rfl

/-- C3 witness: the clauses instantiated on a one-column worksheet whose
only cell is missing (NaN). -/
theorem claim_C3_witness :
    (objLookup (J.obj (.cons "sheet_name" (.str "N")
        (.cons "rows" (.arr (.cons (.obj (.cons "a" .null .nil)) .nil))
          .nil))) "rows"
      = some (.arr (JList.ofList (([[J.nan]] : List (List J)).map
          (fun row => rowToObj ["a"] (row.map nanToNull))))))
    ∧ (JObj.ofPairs ((["a"] : List String).zip
        (([J.nan] : List J).map nanToNull))).keys = ["a"]
    ∧ (JObj.ofPairs ((["a"] : List String).zip
        (([J.nan] : List J).map nanToNull))).values
        = ([J.nan] : List J).map nanToNull
    ∧ nanToNull (.str "kept") = .str "kept" :=
  ⟨claim_C3.1 defaultConverter ⟨["a"], [[.nan]]⟩ "N" _ rfl rfl,
   claim_C3.2.1 ["a"] [J.nan] rfl,
   claim_C3.2.2.1 ["a"] [J.nan] rfl,
   claim_C3.2.2.2.2 (.str "kept") (fun h => by cases h)⟩

/-- C7: output-path resolution follows the source's rules in order — a
bytes target behaves exactly like the string it UTF-8-decodes to; an
existing directory gets the default filename appended; a non-existing
target with no suffix that ends in the separator or whose final segment has
no dot gets the default filename appended; a target with a file extension
(and not an existing directory) is used verbatim; and through
`convert_bytes` (default filename `output.jsonl`) a bytes target encoding a
directory-like path resolves to `<decoded_dir>/output.jsonl`. -/
theorem claim_C7 :
    (∀ (fs : FS) (s : String) (d : String),
        normalizeOutputPath fs (.bytes s) d = normalizeOutputPath fs (.str s) d)
    ∧ (∀ (fs : FS) (t : OutTarget) (d : String),
        fs.isDir t.comps = true →
        normalizeOutputPath fs t d = t.comps ++ [d])
    ∧ (∀ (fs : FS) (t : OutTarget) (d : String),
        fs.isDir t.comps = false →
        pathSuffix (pathNameOf t.comps) = "" →
        (endsWithSlash t.rawStr = true ∨ dotCount (pathNameOf t.comps) = 0) →
        normalizeOutputPath fs t d = t.comps ++ [d])
    ∧ (∀ (fs : FS) (t : OutTarget) (d : String),
        fs.isDir t.comps = false →
        pathSuffix (pathNameOf t.comps) ≠ "" →
        normalizeOutputPath fs t d = t.comps)
    ∧ (∀ (cv : XLSXtoJSONLConverter) (wb : List NamedSheet) (fs : FS)
          (st : Store) (s : String),
        fs.isDir (pathComponents s) = false →
        pathSuffix (pathNameOf (pathComponents s)) = "" →
        endsWithSlash s = true →
        (convertBytesRun cv wb fs st (.bytes s)).1
          = pathComponents s ++ ["output.jsonl"]) := by
  have hrule3 : ∀ (fs : FS) (t : OutTarget) (d : String),
      fs.isDir t.comps = false →
      pathSuffix (pathNameOf t.comps) = "" →
      (endsWithSlash t.rawStr = true ∨ dotCount (pathNameOf t.comps) = 0) →
      normalizeOutputPath fs t d = t.comps ++ [d] := by
    intro fs t d h1 h2 h3
    have hcond : (pathSuffix (pathNameOf t.comps) == "" &&
        (endsWithSlash t.rawStr || dotCount (pathNameOf t.comps) == 0)) = true := by
      rw [h2]
      rcases h3 with h3 | h3
      · rw [h3]
        rfl
      · rw [h3]
        simp
    simp [normalizeOutputPath, h1, hcond]
  refine ⟨?_, ?_, hrule3, ?_, ?_⟩
  · intro fs s d
    rfl
  · intro fs t d h1
    simp [normalizeOutputPath, h1]
  · intro fs t d h1 h2
    have hcond : (pathSuffix (pathNameOf t.comps) == "" &&
        (endsWithSlash t.rawStr || dotCount (pathNameOf t.comps) == 0)) = false := by
      have : (pathSuffix (pathNameOf t.comps) == "") = false := by
        simpa using h2
      rw [this]
      rfl
    simp [normalizeOutputPath, h1, hcond]
  · intro cv wb fs st s h1 h2 h3
    show normalizeOutputPath fs (.bytes s) "output.jsonl"
        = pathComponents s ++ ["output.jsonl"]
    exact hrule3 fs (.bytes s) "output.jsonl" h1 h2 (Or.inl h3)

/-- C7 witness: the rules instantiated on concrete targets — an existing
directory, a non-existing directory-like path, a path with an extension, and
a bytes target ending in the separator through `convert_bytes`. -/
theorem claim_C7_witness :
    normalizeOutputPath (FS.mk fun c => c == ["outdir"]) (.str "outdir")
        "r.jsonl" = ["outdir", "r.jsonl"]
    ∧ normalizeOutputPath (FS.mk fun _ => false) (.str "nested/level")
        "r.jsonl" = ["nested", "level", "r.jsonl"]
    ∧ normalizeOutputPath (FS.mk fun _ => false) (.str "out/file.jsonl")
        "r.jsonl" = ["out", "file.jsonl"]
    ∧ (convertBytesRun defaultConverter [] (FS.mk fun _ => false)
        (fun _ => none) (.bytes "tmp/bytes_dir/")).1
        = ["tmp", "bytes_dir", "output.jsonl"] :=
  ⟨claim_C7.2.1 _ (.str "outdir") _ (by decide),
   claim_C7.2.2.1 _ (.str "nested/level") _ (by decide) (by decide)
     (Or.inr (by decide)),
   claim_C7.2.2.2.1 _ (.str "out/file.jsonl") _ (by decide) (by decide),
   claim_C7.2.2.2.2 defaultConverter [] _ _ "tmp/bytes_dir/" (by decide)
     (by decide) (by decide)⟩

/-- C8: when `output_path` is omitted, `convert` resolves the output to the
input path with its extension replaced by `.jsonl` and returns exactly that
path (stated for an input whose final component is nonempty, as
`with_suffix` requires, and whose derived output is not itself an existing
directory). -/
theorem claim_C8 (cv : XLSXtoJSONLConverter) (wb : List NamedSheet)
    (fs : FS) (st : Store) (input : String)
    (hname : pathNameOf (pathComponents input) ≠ "")
    (hdir : fs.isDir (withSuffixComps (pathComponents input) ".jsonl")
      = false) :
    convertResolvedPath fs input none
        = withSuffixComps (pathComponents input) ".jsonl"
      ∧ (convertRun cv wb fs st input none).1
        = withSuffixComps (pathComponents input) ".jsonl" := by
  have hchars : (pathNameOf (pathComponents input)).toList ≠ [] := by
    intro hnil
    exact hname (String.ext hnil)
  have hstem := stemCore_ne_nil _ hchars
  have hsufx : pathSuffix (withSuffixName (pathNameOf (pathComponents input))
      ".jsonl") = ".jsonl" := by
    unfold pathSuffix withSuffixName
    show (⟨suffixCore (stemCore (pathNameOf (pathComponents input)).toList
        ++ ('.' :: 'j' :: 's' :: 'o' :: 'n' :: 'l' :: []))⟩ : String) = ".jsonl"
    rw [suffixCore_append_jsonl _ hstem]
  have hnm : pathNameOf (withSuffixComps (pathComponents input) ".jsonl")
      = withSuffixName (pathNameOf (pathComponents input)) ".jsonl" := by
    unfold withSuffixComps pathNameOf
    rw [List.getLast?_concat]
    rfl
  have hcond : (pathSuffix (pathNameOf
        (withSuffixComps (pathComponents input) ".jsonl")) == "" &&
      (endsWithSlash (String.intercalate "/"
          (withSuffixComps (pathComponents input) ".jsonl")) ||
        dotCount (pathNameOf
          (withSuffixComps (pathComponents input) ".jsonl")) == 0)) = false := by
    rw [hnm, hsufx]
    rfl
  have hres : convertResolvedPath fs input none
      = withSuffixComps (pathComponents input) ".jsonl" := by
    unfold convertResolvedPath
    show normalizeOutputPath fs
        (.path (withSuffixComps (pathComponents input) ".jsonl"))
        (withSuffixName (pathNameOf (pathComponents input)) ".jsonl")
        = withSuffixComps (pathComponents input) ".jsonl"
    unfold normalizeOutputPath
    simp only [OutTarget.comps, OutTarget.rawStr]
    rw [if_neg (by rw [hdir]; exact Bool.false_ne_true)]
    rw [if_neg (by rw [hcond]; exact Bool.false_ne_true)]
  exact ⟨hres, hres⟩

/-- C8 witness: the default output path for `data/report.xlsx` is
`data/report.jsonl`. -/
theorem claim_C8_witness :
    convertResolvedPath (FS.mk fun _ => false) "data/report.xlsx" none
        = withSuffixComps (pathComponents "data/report.xlsx") ".jsonl"
      ∧ (convertRun defaultConverter [] (FS.mk fun _ => false) (fun _ => none)
          "data/report.xlsx" none).1
        = withSuffixComps (pathComponents "data/report.xlsx") ".jsonl" :=
  claim_C8 defaultConverter [] (FS.mk fun _ => false) (fun _ => none)
    "data/report.xlsx" (by decide) (by decide)

/-- C9: both entry points are deterministic and overwrite: running a
conversion a second time (against the filesystem and store states the first
run left behind) resolves the same path, leaves the directory state
unchanged and rewrites the file with byte-identical content; and after
either run the output file holds exactly the conversion's content,
whatever the file held before. -/
theorem claim_C9 :
    (∀ (cv : XLSXtoJSONLConverter) (wb : List NamedSheet) (fs : FS)
        (st : Store) (input : String) (outT : Option OutTarget),
        (convertRun cv wb (convertRun cv wb fs st input outT).2.1
            (convertRun cv wb fs st input outT).2.2 input outT).1
          = (convertRun cv wb fs st input outT).1
      ∧ (convertRun cv wb (convertRun cv wb fs st input outT).2.1
            (convertRun cv wb fs st input outT).2.2 input outT).2.1
          = (convertRun cv wb fs st input outT).2.1
      ∧ (convertRun cv wb (convertRun cv wb fs st input outT).2.1
            (convertRun cv wb fs st input outT).2.2 input outT).2.2
          = (convertRun cv wb fs st input outT).2.2)
    ∧ (∀ (cv : XLSXtoJSONLConverter) (wb : List NamedSheet) (fs : FS)
        (st : Store) (outT : OutTarget),
        (convertBytesRun cv wb (convertBytesRun cv wb fs st outT).2.1
            (convertBytesRun cv wb fs st outT).2.2 outT).1
          = (convertBytesRun cv wb fs st outT).1
      ∧ (convertBytesRun cv wb (convertBytesRun cv wb fs st outT).2.1
            (convertBytesRun cv wb fs st outT).2.2 outT).2.1
          = (convertBytesRun cv wb fs st outT).2.1
      ∧ (convertBytesRun cv wb (convertBytesRun cv wb fs st outT).2.1
            (convertBytesRun cv wb fs st outT).2.2 outT).2.2
          = (convertBytesRun cv wb fs st outT).2.2)
    ∧ (∀ (cv : XLSXtoJSONLConverter) (wb : List NamedSheet) (fs : FS)
        (st : Store) (input : String) (outT : Option OutTarget),
        (convertRun cv wb fs st input outT).2.2
            (convertRun cv wb fs st input outT).1
          = some (convertContent cv wb))
    ∧ (∀ (cv : XLSXtoJSONLConverter) (wb : List NamedSheet) (fs : FS)
        (st : Store) (outT : OutTarget),
        (convertBytesRun cv wb fs st outT).2.2
            (convertBytesRun cv wb fs st outT).1
          = some (convertBytesContent cv wb)) := by
  refine ⟨?_, ?_, ?_, ?_⟩
  · intro cv wb fs st input outT
    have hpath : convertResolvedPath
        (mkdirParents fs (convertResolvedPath fs input outT)) input outT
          = convertResolvedPath fs input outT := by
      unfold convertResolvedPath
      exact normalize_mkdirParents fs _ _
    refine ⟨?_, ?_, ?_⟩
    · show convertResolvedPath
          (mkdirParents fs (convertResolvedPath fs input outT)) input outT
        = convertResolvedPath fs input outT
      exact hpath
    · show mkdirParents (mkdirParents fs (convertResolvedPath fs input outT))
          (convertResolvedPath
            (mkdirParents fs (convertResolvedPath fs input outT)) input outT)
        = mkdirParents fs (convertResolvedPath fs input outT)
      rw [hpath]
      exact mkdirParents_idem _ _
    · show writeFileStore
          (writeFileStore st (convertResolvedPath fs input outT)
            (convertContent cv wb))
          (convertResolvedPath
            (mkdirParents fs (convertResolvedPath fs input outT)) input outT)
          (convertContent cv wb)
        = writeFileStore st (convertResolvedPath fs input outT)
            (convertContent cv wb)
      rw [hpath]
      exact writeFileStore_idem _ _ _
  · intro cv wb fs st outT
    have hpath : normalizeOutputPath
        (mkdirParents fs (normalizeOutputPath fs outT "output.jsonl")) outT
          "output.jsonl"
        = normalizeOutputPath fs outT "output.jsonl" :=
      normalize_mkdirParents fs outT "output.jsonl"
    refine ⟨?_, ?_, ?_⟩
    · show normalizeOutputPath
          (mkdirParents fs (normalizeOutputPath fs outT "output.jsonl")) outT
            "output.jsonl"
        = normalizeOutputPath fs outT "output.jsonl"
      exact hpath
    · show mkdirParents
          (mkdirParents fs (normalizeOutputPath fs outT "output.jsonl"))
          (normalizeOutputPath
            (mkdirParents fs (normalizeOutputPath fs outT "output.jsonl"))
            outT "output.jsonl")
        = mkdirParents fs (normalizeOutputPath fs outT "output.jsonl")
      rw [hpath]
      exact mkdirParents_idem _ _
    · show writeFileStore
          (writeFileStore st (normalizeOutputPath fs outT "output.jsonl")
            (convertBytesContent cv wb))
          (normalizeOutputPath
            (mkdirParents fs (normalizeOutputPath fs outT "output.jsonl"))
            outT "output.jsonl")
          (convertBytesContent cv wb)
        = writeFileStore st (normalizeOutputPath fs outT "output.jsonl")
            (convertBytesContent cv wb)
      rw [hpath]
      exact writeFileStore_idem _ _ _
  · intro cv wb fs st input outT
    show writeFileStore st (convertResolvedPath fs input outT)
        (convertContent cv wb) (convertResolvedPath fs input outT)
      = some (convertContent cv wb)
    simp [writeFileStore]
  · intro cv wb fs st outT
    show writeFileStore st (normalizeOutputPath fs outT "output.jsonl")
        (convertBytesContent cv wb)
        (normalizeOutputPath fs outT "output.jsonl")
      = some (convertBytesContent cv wb)
    simp [writeFileStore]

/-- C10: a value the base serializer rejects which is not a NumPy integer —
date/time and Timestamp values included — falls through every branch of
`CustomJSONEncoder.default`, which therefore returns `None`, and in the
`convert` pipeline the value is serialized as JSON `null` with no exception
raised. -/
theorem claim_C10 (v : J) (h1 : extensionScalar v = true)
    (h2 : ∀ n : Int, v ≠ .npInt n) :
    customDefault v = .null ∧ jdump customDefaultOpt v = .ok "null" := by
  cases v with
  | npInt n => exact absurd rfl (h2 n)
  | datetime iso => exact ⟨rfl, rfl⟩
  | timestamp iso => exact ⟨rfl, rfl⟩
  | other tag => exact ⟨rfl, rfl⟩
  | null => simp [extensionScalar] at h1
  | int n => simp [extensionScalar] at h1
  | str s => simp [extensionScalar] at h1
  | nan => simp [extensionScalar] at h1
  | arr xs => simp [extensionScalar] at h1
  | obj kvs => simp [extensionScalar] at h1

/-- C10 witness: the fall-through instantiated on a datetime value. -/
theorem claim_C10_witness :
    customDefault (.datetime "2024-06-01T12:00:00") = .null
      ∧ jdump customDefaultOpt (.datetime "2024-06-01T12:00:00")
          = .ok "null" :=
  claim_C10 (.datetime "2024-06-01T12:00:00") rfl (fun n h => by cases h)
